import Mathlib

/-
Verification development for ci_scripts/check_installability_plugins.py.

The script is embedded shallowly: the external world (registry HTTP
responses, the solver subprocess, the conda VersionOrder comparison and
the JSON decoder) is a record of pure functions (`World`), the script's
observable actions (HTTP GETs, sleeps, subprocess executions, prints)
are collected in an event trace, and the lru_cache memoisation of the
three registry lookups is an explicit cache state (`St`).  Python
exceptions are modelled with `Except`.
-/

namespace CheckInstall

/-- Lowercase a string character by character, modelling Python str.lower
on the ASCII package names this script handles. -/
def lowerStr (s : String) : String := String.mk (s.data.map Char.toLower)

/-- Replace every '/' with "::", modelling conda_name.replace("/", "::"). -/
def replaceSlashColons (s : String) : String :=
  String.mk (s.data.foldr (fun c acc => if c = '/' then ':' :: ':' :: acc else c :: acc) [])

/-- Split a character list at every occurrence of the separator character,
modelling Python str.split with a one-character separator. -/
def splitCh (c : Char) : List Char → List (List Char)
  | [] => [[]]
  | a :: rest =>
    if a = c then [] :: splitCh c rest
    else
      match splitCh c rest with
      | [] => [[a]]
      | h :: t => (a :: h) :: t

/-- Element 1 of conda_name.split("/"); `none` models the IndexError the
script would hit on a name without a slash. -/
def split1 (s : String) : Option String :=
  ((splitCh '/' s.data).get? 1).map (fun l => String.mk l)

/-- First four characters, modelling the Python slice pkg_name_lower[:4]. -/
def take4 (s : String) : String := String.mk (s.data.take 4)

/-- A package entry of the solver solution's LINK list (name, version). -/
structure Pkg where
  name : String
  version : String
  deriving DecidableEq

/-- The parsed solver JSON as far as the script reads it: the "success"
flag, actions.LINK, and "solver_problems". -/
structure SolverResult where
  success : Bool
  link : List Pkg
  solverProblems : List String
  deriving DecidableEq

/-- Observable actions of the script, in order. -/
inductive Event where
  | get (url : String)
  | sleep
  | exec (cmd : List String)
  | printPreparing
  | printTask (i n : Nat) (task : List String)
  | printCmd (cmd : List String)
  | printOut (out : String)
  deriving DecidableEq

/-- Python exceptions the embedded fragment can raise. -/
inductive Err where
  | httpError (url : String)
  | jsonError
  | indexError
  deriving DecidableEq

/-- External-world behaviour: registry responses, per-plugin responses,
solver stdout, the JSON decoder and the conda VersionOrder strict
comparison. -/
structure World where
  napariOk : Bool
  napariLatest : String
  pluginsOk : Bool
  plugins : List (String × Option String)
  pluginOk : String → Bool
  pluginLatest : String → String
  solveOut : List String → String
  parse : String → Option SolverResult
  versionLt : String → String → Bool

/-- Script state: the lru_cache contents of the three registry lookups
plus the event trace. -/
structure St where
  napariCache : Option String
  pluginsCache : Option (List (String × Option String))
  pvCache : List (String × Option String)
  events : List Event
  deriving DecidableEq

deriving instance DecidableEq for Except

def initSt : St := ⟨none, none, [], []⟩

def napariUrl : String := "https://api.anaconda.org/package/conda-forge/napari"

def NPE2API_CONDA : String := "https://npe2api.vercel.app/api/conda"

def pvUrl (name : String) : String := NPE2API_CONDA ++ "/" ++ name

/-- Assoc-list lookup in the memo cache of _latest_plugin_version. -/
def pvLookup : List (String × Option String) → String → Option (Option String)
  | [], _ => none
  | (n, v) :: rest, name => if n = name then some v else pvLookup rest name

/-- Model of _latest_napari_on_conda_forge: GET, raise_for_status, then read
json()["latest_version"]; memoised by lru_cache (failures are not cached). -/
def latest_napari_on_conda_forge (w : World) (s : St) : Except Err String × St :=
  match s.napariCache with
  | some v => (.ok v, s)
  | none =>
    let s1 : St := { s with events := s.events ++ [.get napariUrl] }
    if w.napariOk then
      (.ok w.napariLatest, { s1 with napariCache := some w.napariLatest })
    else
      (.error (.httpError napariUrl), s1)

/-- Model of _all_plugin_names: GET, raise_for_status, then the JSON mapping from
PyPI name to conda name (possibly null); memoised by lru_cache. -/
def all_plugin_names (w : World) (s : St) : Except Err (List (String × Option String)) × St :=
  match s.pluginsCache with
  | some v => (.ok v, s)
  | none =>
    let s1 : St := { s with events := s.events ++ [.get NPE2API_CONDA] }
    if w.pluginsOk then
      (.ok w.plugins, { s1 with pluginsCache := some w.plugins })
    else
      (.error (.httpError NPE2API_CONDA), s1)

/-- Model of _latest_plugin_version: GET, sleep 0.1 s, and return
json()["latest_version"] when the response is ok, None otherwise;
memoised by lru_cache (the None result included). -/
def latest_plugin_version (w : World) (name : String) (s : St) : Option String × St :=
  match pvLookup s.pvCache name with
  | some v => (v, s)
  | none =>
    let res := if w.pluginOk name then some (w.pluginLatest name) else none
    (res, { s with events := s.events ++ [.get (pvUrl name), .sleep],
                   pvCache := s.pvCache ++ [(name, res)] })

def staleMsg (name version latest : String) : String :=
  name ++ "==" ++ version ++ " is not the latest version (" ++ latest ++ ")"

def warnMsg (name version : String) : String :=
  "Warning: Could not check version for " ++ name ++ "==" ++ version

/-- The pure tail of _check_if_latest once latest_v is known: Python
truthiness of latest_v, VersionOrder comparison, message construction. -/
def checkCore (w : World) (pkg : Pkg) (latest_v : Option String) : List String :=
  match latest_v with
  | some lv =>
    if lv = "" then [warnMsg pkg.name pkg.version]
    else if w.versionLt pkg.version lv then [staleMsg pkg.name pkg.version lv]
    else []
  | none => [warnMsg pkg.name pkg.version]

/-- Model of _check_if_latest: pick the napari lookup or the per-plugin lookup by
name, then compare against the package's version. -/
def check_if_latest (w : World) (pkg : Pkg) (s : St) : Except Err (List String) × St :=
  if pkg.name = "napari" then
    match latest_napari_on_conda_forge w s with
    | (.error e, s1) => (.error e, s1)
    | (.ok v, s1) => (.ok (checkCore w pkg (some v)), s1)
  else
    let p := latest_plugin_version w pkg.name s
    (.ok (checkCore w pkg p.1), p.2)

/-- The fixed micromamba options of _solve's command list. -/
def micromambaBase : List String :=
  ["micromamba", "create", "-n", "notused", "--dry-run", "-c", "conda-forge", "--json"]

/-- The generator `arg for arg in args if arg`: keep truthy (non-empty)
arguments in order. -/
def truthyArgs : List String → List String
  | [] => []
  | a :: rest => if a = "" then truthyArgs rest else a :: truthyArgs rest

def solveCommand (args : List String) : List String := micromambaBase ++ truthyArgs args

/-- Model of _solve: build the command, run the subprocess, and json.loads its
stdout; on a decode error the command and output are printed and the
exception propagates. -/
def solve (w : World) (args : List String) (s : St) : Except Err SolverResult × St :=
  let command := solveCommand args
  let out := w.solveOut command
  let s1 : St := { s with events := s.events ++ [.exec command] }
  match w.parse out with
  | some v => (.ok v, s1)
  | none => (.error .jsonError, { s1 with events := s1.events ++ [.printCmd command, .printOut out] })

def pythonSpec (pyver : String) : String := "python=" ++ pyver ++ ".*=*cpython"

def napariSpec (v : String) : String := "napari=" ++ v ++ "=*pyside*"

/-- Set insertion for names_to_check (a Python set: membership only). -/
def addName (names : List String) (n : String) : List String :=
  if n ∈ names then names else names ++ [n]

/-- The "Preparing tasks" loop of main: for each (pypi_name, conda_name)
with conda_name not None, build the plugin spec (pinning the latest
version in per-task mode when the lookup is truthy), append it, and add
conda_name.split("/")[1] to names_to_check. -/
def buildSpecs (w : World) (allFlag : Bool) :
    List (String × Option String) → List String → List String → St →
    Except Err (List String × List String) × St
  | [], specs, names, s => (.ok (specs, names), s)
  | (pypiName, condaName) :: rest, specs, names, s =>
    match condaName with
    | none => buildSpecs w allFlag rest specs names s
    | some cn =>
      let base := replaceSlashColons cn
      let p :=
        if allFlag then (base, s)
        else
          let q := latest_plugin_version w pypiName s
          match q.1 with
          | some v => (if v = "" then base else base ++ "==" ++ v, q.2)
          | none => (base, q.2)
      match split1 cn with
      | none => (.error .indexError, p.2)
      | some nm => buildSpecs w allFlag rest (specs ++ [p.1]) (addName names nm) p.2

/-- Task construction of main: one aggregate task with every plugin spec
under --all, else the baseline task (empty-string plugin) followed by one
task per plugin spec. -/
def mkTasks (allFlag : Bool) (python_spec napari_spec : String)
    (plugin_specs : List String) : List (List String) :=
  if allFlag then [python_spec :: napari_spec :: plugin_specs]
  else ("" :: plugin_specs).map (fun ps => [python_spec, napari_spec, ps])

/-- The failures defaultdict: insertion-ordered association list from
task to accumulated failure strings. -/
abbrev Failures := List (List String × List String)

def lookupF : Failures → List String → Option (List String)
  | [], _ => none
  | (t, l) :: rest, task => if t = task then some l else lookupF rest task

/-- failures[task].extend(new): extend the existing entry, or create the
entry (defaultdict) with the new strings. -/
def extendAt : Failures → List String → List String → Failures
  | [], task, new => [(task, new)]
  | (t, l) :: rest, task, new =>
    if t = task then (t, l ++ new) :: rest else (t, l) :: extendAt rest task new

/-- x is among the failure strings recorded for the task. -/
def memF (fs : Failures) (task : List String) (x : String) : Prop :=
  x ∈ (lookupF fs task).getD []

def pyqtMsg (pkg : Pkg) : String := "solution has " ++ pkg.name ++ "==" ++ pkg.version

/-- The body of the LINK loop for one package: the latest-version check
(only with --all and a checked name), else the pyqt check, else nothing;
returns the strings to record for this package. -/
def processPkg (w : World) (allFlag : Bool) (names : List String) (pkg : Pkg) (s : St) :
    Except Err (List String) × St :=
  let lower := lowerStr pkg.name
  if allFlag = true ∧ lower ∈ names then
    check_if_latest w pkg s
  else if take4 lower = "pyqt" ∧ lower ≠ "pyqtgraph" then
    (.ok [pyqtMsg pkg], s)
  else
    (.ok [], s)

/-- The loop over result["actions"]["LINK"]; a non-empty chunk of
failures is recorded for the task (the guarded extend / the append). -/
def processLink (w : World) (allFlag : Bool) (names : List String) (task : List String) :
    List Pkg → Failures → St → Except Err Failures × St
  | [], fs, s => (.ok fs, s)
  | pkg :: rest, fs, s =>
    match processPkg w allFlag names pkg s with
    | (.error e, s1) => (.error e, s1)
    | (.ok chunk, s1) =>
      let fs1 := if chunk = [] then fs else extendAt fs task chunk
      processLink w allFlag names task rest fs1 s1

/-- One iteration of the task loop: solve, then on success scan the LINK
list, otherwise extend the task's failures with solver_problems. -/
def processTask (w : World) (allFlag : Bool) (names : List String) (task : List String)
    (fs : Failures) (s : St) : Except Err Failures × St :=
  match solve w task s with
  | (.error e, s1) => (.error e, s1)
  | (.ok r, s1) =>
    if r.success = true then processLink w allFlag names task r.link fs s1
    else (.ok (extendAt fs task r.solverProblems), s1)

/-- The task loop of main, printing the Task i/n header before each solve. -/
def runTasks (w : World) (allFlag : Bool) (names : List String) (n : Nat) :
    List (List String) → Nat → Failures → St → Except Err Failures × St
  | [], _, fs, s => (.ok fs, s)
  | task :: rest, i, fs, s =>
    let s0 : St := { s with events := s.events ++ [.printTask i n task] }
    match processTask w allFlag names task fs s0 with
    | (.error e, s1) => (.error e, s1)
    | (.ok fs1, s1) => runTasks w allFlag names n rest (i + 1) fs1 s1

/-- Sequencing of a fallible step with state threading. -/
def bindE {α β : Type} (x : Except Err α × St) (f : α → St → Except Err β × St) :
    Except Err β × St :=
  match x with
  | (.error e, s) => (.error e, s)
  | (.ok a, s) => f a s

/-- main up to and including the task loop: fetch napari's latest
version, fetch the plugin mapping, build specs and names_to_check, build
the task list and run it, producing the failures dict. -/
def mainFailures (w : World) (allFlag : Bool) (pyver : String) : Except Err Failures × St :=
  bindE (latest_napari_on_conda_forge w initSt) (fun nv s =>
  bindE (all_plugin_names w s) (fun plugins s =>
  let s1 : St := { s with events := s.events ++ [.printPreparing] }
  bindE (buildSpecs w allFlag plugins [] ["napari"] s1) (fun sn s2 =>
  let tasks := mkTasks allFlag (pythonSpec pyver) (napariSpec nv) sn.1
  runTasks w allFlag sn.2 tasks.length tasks 1 [] s2)))

/-- Total failure strings: sum(len(problems) for problems in failures.values()). -/
def totalProblems (fs : Failures) : Nat := (fs.map (fun p => p.2.length)).sum

/-- main: compute the failures dict, then return the exit code — the
total problem count under --all, the number of failing tasks otherwise.
The caller passes this value to sys.exit. -/
def main (w : World) (allFlag : Bool) (pyver : String) : Except Err Nat × St :=
  match mainFailures w allFlag pyver with
  | (.error e, s) => (.error e, s)
  | (.ok fs, s) =>
    if allFlag then (.ok (totalProblems fs), s) else (.ok fs.length, s)

/-- What _latest_plugin_version reports for a name, as a function of the
world alone (the value any coherent cache must hold). -/
def pvResult (w : World) (name : String) : Option String :=
  if w.pluginOk name then some (w.pluginLatest name) else none

/-- The registry's latest version for a checked name: the napari lookup
for "napari", the per-plugin lookup otherwise. -/
def wLatestOpt (w : World) (name : String) : Option String :=
  if name = "napari" then some w.napariLatest else pvResult w name

/-- Python truthiness of the optional latest version. -/
def truthyOpt : Option String → Bool
  | some v => v ≠ ""
  | none => false

/-- Cache coherence: every cached value is the one the world dictates. -/
def StCoh (w : World) (s : St) : Prop :=
  (∀ v, s.napariCache = some v → v = w.napariLatest) ∧
  (∀ n v, (n, v) ∈ s.pvCache → v = pvResult w n)

/-- The napari latest version is available: already cached, or the
request succeeds. -/
def NapOK (w : World) (s : St) : Prop :=
  s.napariCache ≠ none ∨ w.napariOk = true

/-- Run invariant: coherent caches and an available napari version. -/
def Inv (w : World) (s : St) : Prop := StCoh w s ∧ NapOK w s

/-- The failure strings the LINK-loop body yields for one package, as a
function of the world (matches processPkg on coherent states). -/
def chunkOf (w : World) (allFlag : Bool) (names : List String) (pkg : Pkg) : List String :=
  let lower := lowerStr pkg.name
  if allFlag = true ∧ lower ∈ names then checkCore w pkg (wLatestOpt w pkg.name)
  else if take4 lower = "pyqt" ∧ lower ≠ "pyqtgraph" then [pyqtMsg pkg]
  else []

/-- Number of solver invocations recorded in a trace. -/
def countExec (evs : List Event) : Nat :=
  (evs.filter (fun e => match e with | .exec _ => true | _ => false)).length

/-- Checks that between any two consecutive registry requests of a trace
there is a sleep; the flag records a request seen with no sleep since. -/
def sleepSeparated : Bool → List Event → Bool
  | _, [] => true
  | pending, e :: rest =>
    match e with
    | .get _ => if pending then false else sleepSeparated true rest
    | .sleep => sleepSeparated false rest
    | _ => sleepSeparated pending rest

/-- Number of plugins with a non-null conda name. -/
def pluginCount (w : World) : Nat := (w.plugins.filter (fun pc => pc.2.isSome)).length

/-- The spec a plugin with conda name cn contributes: slash replaced by
"::", pinned to the latest version in per-task mode when the lookup is
truthy. -/
def pluginSpecOf (w : World) (allFlag : Bool) (pypi cn : String) : String :=
  let base := replaceSlashColons cn
  if allFlag then base
  else
    match pvResult w pypi with
    | some v => if v = "" then base else base ++ "==" ++ v
    | none => base

/-- Concrete worlds used by witnesses and counterexamples. -/
def wSolverFail : World :=
  { napariOk := true, napariLatest := "1.0", pluginsOk := true, plugins := [],
    pluginOk := fun _ => true, pluginLatest := fun _ => "2.0",
    solveOut := fun _ => "out", parse := fun _ => some ⟨false, [], []⟩,
    versionLt := fun _ _ => false }

def wHttpFail : World :=
  { napariOk := false, napariLatest := "1.0", pluginsOk := false, plugins := [],
    pluginOk := fun _ => false, pluginLatest := fun _ => "2.0",
    solveOut := fun _ => "out", parse := fun _ => none,
    versionLt := fun _ _ => false }

def wStale : World :=
  { napariOk := true, napariLatest := "9.9", pluginsOk := true, plugins := [],
    pluginOk := fun _ => true, pluginLatest := fun _ => "9.9",
    solveOut := fun _ => "out",
    parse := fun _ => some ⟨true, [⟨"napari", "0.1"⟩], []⟩,
    versionLt := fun a b => a == "0.1" && b == "9.9" }

def wStaleAll : World :=
  { napariOk := true, napariLatest := "9.9", pluginsOk := true, plugins := [],
    pluginOk := fun _ => true, pluginLatest := fun _ => "2.0",
    solveOut := fun _ => "out",
    parse := fun _ => some ⟨true, [⟨"foo", "1.0"⟩], []⟩,
    versionLt := fun a b => a == "1.0" && b == "2.0" }

def wPyqt : World :=
  { napariOk := true, napariLatest := "1.0", pluginsOk := true, plugins := [],
    pluginOk := fun _ => true, pluginLatest := fun _ => "2.0",
    solveOut := fun _ => "out",
    parse := fun _ => some ⟨true, [⟨"PyQt5", "5.15"⟩], []⟩,
    versionLt := fun _ _ => false }

def wMixed : World :=
  { napariOk := true, napariLatest := "1.0", pluginsOk := true,
    plugins := [("a", some "ch/apkg"), ("b", none)],
    pluginOk := fun _ => true, pluginLatest := fun _ => "3.3",
    solveOut := fun _ => "out", parse := fun _ => some ⟨true, [], []⟩,
    versionLt := fun _ _ => false }

/-- The baseline task of a wSolverFail per-task run. -/
def taskBase : List String := ["python=3.*=*cpython", "napari=1.0=*pyside*", ""]

/-- Final state of `main wSolverFail false "3"`. -/
def stMainFail : St :=
  ⟨some "1.0", some [], [],
   [.get napariUrl, .get NPE2API_CONDA, .printPreparing,
    .printTask 1 1 taskBase, .exec (solveCommand taskBase)]⟩

/-- Final state of `processTask wStaleAll true ["foo"] ["t"] [] initSt`. -/
def stStaleAll : St :=
  ⟨none, none, [("foo", some "2.0")],
   [.exec (solveCommand ["t"]), .get (pvUrl "foo"), .sleep]⟩

/-- Final state of `processTask wPyqt false [] ["t"] [] initSt`. -/
def stPyqt : St := ⟨none, none, [], [.exec (solveCommand ["t"])]⟩

/-- Final state of `buildSpecs wMixed false wMixed.plugins [] ["napari"] initSt`. -/
def stMixed : St := ⟨none, none, [("a", some "3.3")], [.get (pvUrl "a"), .sleep]⟩

section Lemmas

theorem lookupF_extendAt_self (fs : Failures) (t new : List String) :
    lookupF (extendAt fs t new) t = some ((lookupF fs t).getD [] ++ new) := by
  induction fs with
  | nil => simp [extendAt, lookupF]
  | cons p rest ih =>
    obtain ⟨a, l⟩ := p
    by_cases h : a = t
    · simp [extendAt, lookupF, h]
    · simp [extendAt, lookupF, h, ih]

theorem lookupF_extendAt_ne {t t' : List String} (h : t' ≠ t) (fs : Failures)
    (new : List String) : lookupF (extendAt fs t' new) t = lookupF fs t := by
  induction fs with
  | nil => simp [extendAt, lookupF, h]
  | cons p rest ih =>
    obtain ⟨a, l⟩ := p
    by_cases ha : a = t'
    · subst ha
      simp [extendAt, lookupF, h]
    · by_cases hat : a = t <;> simp [extendAt, lookupF, ha, hat, Ne.symm h, ih]

theorem memF_extendAt_self {x : String} {new : List String} (fs : Failures)
    (t : List String) (hx : x ∈ new) : memF (extendAt fs t new) t x := by
  unfold memF
  rw [lookupF_extendAt_self]
  simp [hx]

theorem memF_extendAt_mono {fs : Failures} {t t' new : List String} {x : String}
    (h : memF fs t x) : memF (extendAt fs t' new) t x := by
  unfold memF at h ⊢
  by_cases ht : t' = t
  · subst ht
    rw [lookupF_extendAt_self]
    simp only [Option.getD_some, List.mem_append]
    exact Or.inl h
  · rw [lookupF_extendAt_ne ht]
    exact h

theorem mem_addName {names : List String} {n x : String} :
    x ∈ addName names n ↔ x ∈ names ∨ x = n := by
  unfold addName
  by_cases h : n ∈ names
  · simp only [h, if_true]
    constructor
    · exact Or.inl
    · rintro (hx | rfl)
      · exact hx
      · exact h
  · simp [h]

theorem truthyArgs_eq_filter (args : List String) :
    truthyArgs args = args.filter (fun a => a ≠ "") := by
  induction args with
  | nil => rfl
  | cons a rest ih =>
    by_cases h : a = "" <;> simp [truthyArgs, h, ih]

theorem pythonSpec_ne_empty (v : String) : pythonSpec v ≠ "" := by
  intro h
  have hd : (pythonSpec v).data = [] := by rw [h]
  simp [pythonSpec, String.data_append] at hd

theorem napariSpec_ne_empty (v : String) : napariSpec v ≠ "" := by
  intro h
  have hd : (napariSpec v).data = [] := by rw [h]
  simp [napariSpec, String.data_append] at hd

end Lemmas

/-- C2: when a solver invocation reports success as anything but True,
the task's failure list is extended with the result's solver problem
strings, and no exception is raised (the failure shows up only in the
accumulated failures, hence only in the exit code). -/
theorem solver_failure_recorded {w : World} {flag : Bool} {names task : List String}
    {fs : Failures} {s : St} {r : SolverResult} {s1 : St}
    (hs : solve w task s = (.ok r, s1)) (hf : r.success = false) :
    processTask w flag names task fs s = (.ok (extendAt fs task r.solverProblems), s1) ∧
    lookupF (extendAt fs task r.solverProblems) task =
      some ((lookupF fs task).getD [] ++ r.solverProblems) := by
  constructor
  · simp [processTask, hs, hf]
  · exact lookupF_extendAt_self fs task r.solverProblems

theorem solver_failure_recorded_witness :
    processTask wSolverFail false [] ["python=3.*=*cpython"] [] initSt =
      (.ok [(["python=3.*=*cpython"], [])], ⟨none, none, [],
        [.exec (solveCommand ["python=3.*=*cpython"])]⟩) := by
  have h := @solver_failure_recorded wSolverFail false [] ["python=3.*=*cpython"] [] initSt
    ⟨false, [], []⟩ ⟨none, none, [], [.exec (solveCommand ["python=3.*=*cpython"])]⟩
    (by decide) (by decide)
  exact h.1

/-- C3: _solve raises a JSONDecodeError (after printing the command and
the solver output) exactly when the solver's stdout fails to parse as
JSON; on a parsable output it returns the parsed value. -/
theorem solve_json_contract {w : World} (args : List String) (s : St) :
    (w.parse (w.solveOut (solveCommand args)) = none →
       solve w args s = (.error .jsonError,
         { s with events := s.events ++ [.exec (solveCommand args),
             .printCmd (solveCommand args),
             .printOut (w.solveOut (solveCommand args))] })) ∧
    (∀ r, w.parse (w.solveOut (solveCommand args)) = some r →
       solve w args s = (.ok r, { s with events := s.events ++ [.exec (solveCommand args)] })) := by
  constructor
  · intro h
    simp [solve, h]
  · intro r h
    simp [solve, h]

theorem solve_json_contract_witness :
    (solve wHttpFail ["a"] initSt = (.error .jsonError,
       ⟨none, none, [], [.exec (solveCommand ["a"]), .printCmd (solveCommand ["a"]),
         .printOut "out"]⟩)) ∧
    (solve wSolverFail ["a"] initSt = (.ok ⟨false, [], []⟩,
       ⟨none, none, [], [.exec (solveCommand ["a"])]⟩)) := by
  constructor
  · exact (@solve_json_contract wHttpFail ["a"] initSt).1 (by decide)
  · exact (@solve_json_contract wSolverFail ["a"] initSt).2 ⟨false, [], []⟩ (by decide)

/-- C4 counterexample: a failed per-plugin registry request is not
fatal — _latest_plugin_version performs the GET (the event is recorded),
the response is not ok, and the function returns None instead of
raising. -/
theorem plugin_version_http_counterexample :
    wHttpFail.pluginOk "foo" = false ∧
    latest_plugin_version wHttpFail "foo" initSt =
      (none, ⟨none, none, [("foo", none)], [.get (pvUrl "foo"), .sleep]⟩) := by
  decide

/-- C4 amended: the napari-latest and plugin-listing lookups raise on a
failed (non-ok) HTTP response, while the per-plugin latest-version
lookup returns None on a failed response instead of raising. -/
theorem http_failures (w : World) :
    (∀ s : St, s.napariCache = none → w.napariOk = false →
       (latest_napari_on_conda_forge w s).1 = .error (.httpError napariUrl)) ∧
    (∀ s : St, s.pluginsCache = none → w.pluginsOk = false →
       (all_plugin_names w s).1 = .error (.httpError NPE2API_CONDA)) ∧
    (∀ (s : St) (name : String), pvLookup s.pvCache name = none → w.pluginOk name = false →
       (latest_plugin_version w name s).1 = none) := by
  refine ⟨?_, ?_, ?_⟩
  · intro s hc hok
    simp [latest_napari_on_conda_forge, hc, hok]
  · intro s hc hok
    simp [all_plugin_names, hc, hok]
  · intro s name hc hok
    simp [latest_plugin_version, hc, hok]

theorem http_failures_witness :
    (latest_napari_on_conda_forge wHttpFail initSt).1 = .error (.httpError napariUrl) ∧
    (all_plugin_names wHttpFail initSt).1 = .error (.httpError NPE2API_CONDA) ∧
    (latest_plugin_version wHttpFail "foo" initSt).1 = none :=
  ⟨(http_failures wHttpFail).1 initSt (by decide) (by decide),
   (http_failures wHttpFail).2.1 initSt (by decide) (by decide),
   (http_failures wHttpFail).2.2 initSt "foo" (by decide) (by decide)⟩

/-- C9: _solve keeps exactly the truthy (non-empty) arguments, in order,
after the fixed micromamba options; in particular the baseline task with
the empty-string plugin spec yields a command with only the python and
napari specifications. -/
theorem truthy_command :
    (∀ args : List String, solveCommand args = micromambaBase ++ args.filter (fun a => a ≠ "")) ∧
    (∀ pyver nv : String, solveCommand [pythonSpec pyver, napariSpec nv, ""] =
       micromambaBase ++ [pythonSpec pyver, napariSpec nv]) := by
  constructor
  · intro args
    rw [solveCommand, truthyArgs_eq_filter]
  · intro pyver nv
    rw [solveCommand]
    simp [truthyArgs, pythonSpec_ne_empty, napariSpec_ne_empty]

section Machinery

theorem pvLookup_mem {l : List (String × Option String)} {name : String} {v : Option String}
    (h : pvLookup l name = some v) : (name, v) ∈ l := by
  induction l with
  | nil => simp [pvLookup] at h
  | cons p rest ih =>
    obtain ⟨n, u⟩ := p
    by_cases hn : n = name
    · subst hn
      simp [pvLookup] at h
      subst h
      exact List.mem_cons_self _ _
    · simp [pvLookup, hn] at h
      exact List.mem_cons_of_mem _ (ih h)

theorem countExec_append (a b : List Event) : countExec (a ++ b) = countExec a + countExec b := by
  simp [countExec, List.filter_append]

theorem napok_of_eq {w : World} {s s' : St} (h : s'.napariCache = s.napariCache)
    (hn : NapOK w s) : NapOK w s' := by
  unfold NapOK at hn ⊢
  rw [h]
  exact hn

theorem inv_of_caches {w : World} {s s' : St} (h1 : s'.napariCache = s.napariCache)
    (h2 : s'.pvCache = s.pvCache) (h : Inv w s) : Inv w s' := by
  obtain ⟨⟨c1, c2⟩, hn⟩ := h
  refine ⟨⟨?_, ?_⟩, napok_of_eq h1 hn⟩
  · rw [h1]; exact c1
  · rw [h2]; exact c2

theorem lpv_spec {w : World} {s : St} (h : StCoh w s) (name : String) :
    (latest_plugin_version w name s).1 = pvResult w name ∧
    StCoh w (latest_plugin_version w name s).2 ∧
    (latest_plugin_version w name s).2.napariCache = s.napariCache ∧
    (latest_plugin_version w name s).2.pluginsCache = s.pluginsCache ∧
    countExec (latest_plugin_version w name s).2.events = countExec s.events := by
  cases hc : pvLookup s.pvCache name with
  | some v =>
    have hv := h.2 name v (pvLookup_mem hc)
    simp [latest_plugin_version, hc, hv, h]
  | none =>
    refine ⟨?_, ⟨?_, ?_⟩, ?_, ?_, ?_⟩
    · simp [latest_plugin_version, hc, pvResult]
    · simp only [latest_plugin_version, hc]
      exact h.1
    · simp only [latest_plugin_version, hc]
      intro n v hmem
      rw [List.mem_append] at hmem
      rcases hmem with hmem | hmem
      · exact h.2 n v hmem
      · simp at hmem
        obtain ⟨rfl, rfl⟩ := hmem
        simp [pvResult]
    · simp [latest_plugin_version, hc]
    · simp [latest_plugin_version, hc]
    · simp only [latest_plugin_version, hc]
      rw [countExec_append]
      simp [countExec]

theorem ln_spec {w : World} {s : St} (hcoh : StCoh w s) (hnap : NapOK w s) :
    (latest_napari_on_conda_forge w s).1 = .ok w.napariLatest ∧
    StCoh w (latest_napari_on_conda_forge w s).2 ∧
    NapOK w (latest_napari_on_conda_forge w s).2 ∧
    (latest_napari_on_conda_forge w s).2.pvCache = s.pvCache ∧
    (latest_napari_on_conda_forge w s).2.pluginsCache = s.pluginsCache ∧
    countExec (latest_napari_on_conda_forge w s).2.events = countExec s.events := by
  cases hc : s.napariCache with
  | some v =>
    have hv := hcoh.1 v hc
    subst hv
    refine ⟨?_, ?_, ?_, ?_, ?_, ?_⟩ <;> simp [latest_napari_on_conda_forge, hc]
    · exact hcoh
    · unfold NapOK
      rw [hc]
      left
      simp
  | none =>
    have hok : w.napariOk = true := by
      rcases hnap with h | h
      · exact absurd hc h
      · exact h
    refine ⟨?_, ⟨?_, ?_⟩, ?_, ?_, ?_⟩ <;> simp [latest_napari_on_conda_forge, hc, hok]
    · exact hcoh.2
    · unfold NapOK
      left
      simp [latest_napari_on_conda_forge, hc, hok]
    · rw [countExec_append]
      simp [countExec]

theorem solve_caches (w : World) (args : List String) (s : St) :
    (solve w args s).2.napariCache = s.napariCache ∧
    (solve w args s).2.pvCache = s.pvCache ∧
    (solve w args s).2.pluginsCache = s.pluginsCache ∧
    countExec (solve w args s).2.events = countExec s.events + 1 := by
  cases hp : w.parse (w.solveOut (solveCommand args)) <;>
    simp [solve, hp] <;> rw [countExec_append] <;> simp [countExec]

theorem cil_spec {w : World} {pkg : Pkg} {s : St} (h : Inv w s) :
    (check_if_latest w pkg s).1 = .ok (checkCore w pkg (wLatestOpt w pkg.name)) ∧
    Inv w (check_if_latest w pkg s).2 ∧
    countExec (check_if_latest w pkg s).2.events = countExec s.events := by
  obtain ⟨hcoh, hnap⟩ := h
  by_cases hn : pkg.name = "napari"
  · have hl := ln_spec hcoh hnap
    cases hln : latest_napari_on_conda_forge w s with
    | mk r1 s1 =>
      rw [hln] at hl
      simp only at hl
      obtain ⟨h1, h2, h3, h4, h5, h6⟩ := hl
      subst h1
      simp [check_if_latest, hn, hln, wLatestOpt]
      exact ⟨⟨h2, h3⟩, h6⟩
  · have hl := lpv_spec hcoh pkg.name
    cases hlp : latest_plugin_version w pkg.name s with
    | mk v1 s1 =>
      rw [hlp] at hl
      simp only at hl
      obtain ⟨h1, h2, h3, h4, h5⟩ := hl
      subst h1
      simp [check_if_latest, hn, hlp, wLatestOpt]
      exact ⟨⟨h2, napok_of_eq h3 hnap⟩, h5⟩

theorem pp_spec {w : World} {flag : Bool} {names : List String} {pkg : Pkg} {s : St}
    (h : Inv w s) :
    (processPkg w flag names pkg s).1 = .ok (chunkOf w flag names pkg) ∧
    Inv w (processPkg w flag names pkg s).2 ∧
    countExec (processPkg w flag names pkg s).2.events = countExec s.events := by
  by_cases h1 : flag = true ∧ lowerStr pkg.name ∈ names
  · have hc := @cil_spec w pkg s h
    simpa [processPkg, chunkOf, h1] using hc
  · by_cases h2 : take4 (lowerStr pkg.name) = "pyqt" ∧ lowerStr pkg.name ≠ "pyqtgraph"
    · simp [processPkg, chunkOf, h1, h2]
      exact h
    · simp [processPkg, chunkOf, h1, h2]
      exact h

theorem pl_ok_spec {w : World} {flag : Bool} {names task : List String} :
    ∀ (pkgs : List Pkg) (fs : Failures) (s : St), Inv w s →
    ∀ fs' s', processLink w flag names task pkgs fs s = (.ok fs', s') →
    Inv w s' ∧ countExec s'.events = countExec s.events ∧
    (∀ t x, memF fs t x → memF fs' t x) ∧
    (∀ pkg ∈ pkgs, ∀ x ∈ chunkOf w flag names pkg, memF fs' task x) := by
  intro pkgs
  induction pkgs with
  | nil =>
    intro fs s hinv fs' s' h
    simp [processLink] at h
    obtain ⟨h1, h2⟩ := h
    subst h1
    subst h2
    exact ⟨hinv, rfl, fun t x hx => hx, by simp⟩
  | cons pkg rest ih =>
    intro fs s hinv fs' s' h
    have hp := @pp_spec w flag names pkg s hinv
    cases hpp : processPkg w flag names pkg s with
    | mk r1 s1 =>
      rw [hpp] at hp
      simp only at hp
      obtain ⟨h1, hinv1, hcnt1⟩ := hp
      subst h1
      rw [processLink, hpp] at h
      by_cases hcz : chunkOf w flag names pkg = []
      · rw [hcz] at h
        simp at h
        have hres := ih fs s1 hinv1 fs' s' h
        refine ⟨hres.1, by rw [hres.2.1, hcnt1], hres.2.2.1, ?_⟩
        intro pkg' hpk x hx
        rcases List.mem_cons.mp hpk with hpk | hpk
        · subst hpk
          rw [hcz] at hx
          simp at hx
        · exact hres.2.2.2 pkg' hpk x hx
      · simp only [if_neg hcz] at h
        have hres := ih (extendAt fs task (chunkOf w flag names pkg)) s1 hinv1 fs' s' h
        refine ⟨hres.1, by rw [hres.2.1, hcnt1], ?_, ?_⟩
        · intro t x hx
          exact hres.2.2.1 t x (memF_extendAt_mono hx)
        · intro pkg' hpk x hx
          rcases List.mem_cons.mp hpk with hpk | hpk
          · subst hpk
            exact hres.2.2.1 task x (memF_extendAt_self fs task hx)
          · exact hres.2.2.2 pkg' hpk x hx

theorem pt_ok_spec {w : World} {flag : Bool} {names task : List String}
    {fs : Failures} {s : St} {fs' : Failures} {s' : St} (hinv : Inv w s)
    (h : processTask w flag names task fs s = (.ok fs', s')) :
    Inv w s' ∧ countExec s'.events = countExec s.events + 1 ∧
    (∀ t x, memF fs t x → memF fs' t x) := by
  have hsc := solve_caches w task s
  cases hs : solve w task s with
  | mk r1 s1 =>
    rw [hs] at hsc
    simp only at hsc
    obtain ⟨hc1, hc2, hc3, hc4⟩ := hsc
    have hinv1 : Inv w s1 := inv_of_caches hc1 hc2 hinv
    cases r1 with
    | error e =>
      rw [processTask, hs] at h
      simp at h
    | ok r =>
      rw [processTask, hs] at h
      by_cases hsucc : r.success = true
      · simp only [hsucc, if_true] at h
        have hres := pl_ok_spec r.link fs s1 hinv1 fs' s' h
        exact ⟨hres.1, by rw [hres.2.1, hc4], hres.2.2.1⟩
      · simp only [hsucc, if_false] at h
        simp at h
        obtain ⟨h1, h2⟩ := h
        subst h1
        subst h2
        exact ⟨hinv1, hc4, fun t x hx => memF_extendAt_mono hx⟩

theorem rt_ok_spec {w : World} {flag : Bool} {names : List String} {n : Nat} :
    ∀ (tasks : List (List String)) (i : Nat) (fs : Failures) (s : St), Inv w s →
    ∀ fs' s', runTasks w flag names n tasks i fs s = (.ok fs', s') →
    Inv w s' ∧ countExec s'.events = countExec s.events + tasks.length ∧
    (∀ t x, memF fs t x → memF fs' t x) := by
  intro tasks
  induction tasks with
  | nil =>
    intro i fs s hinv fs' s' h
    simp [runTasks] at h
    obtain ⟨h1, h2⟩ := h
    subst h1
    subst h2
    exact ⟨hinv, rfl, fun t x hx => hx⟩
  | cons task rest ih =>
    intro i fs s hinv fs' s' h
    rw [runTasks] at h
    set s0 : St := { s with events := s.events ++ [.printTask i n task] } with hs0
    have hinv0 : Inv w s0 := inv_of_caches rfl rfl hinv
    cases hpt : processTask w flag names task fs s0 with
    | mk r1 s1 =>
      rw [hpt] at h
      cases r1 with
      | error e => simp at h
      | ok fs1 =>
        have hstep := pt_ok_spec hinv0 hpt
        have hres := ih (i + 1) fs1 s1 hstep.1 fs' s' h
        refine ⟨hres.1, ?_, fun t x hx => hres.2.2 t x (hstep.2.2 t x hx)⟩
        rw [hres.2.1, hstep.2.1]
        have hs0e : countExec s0.events = countExec s.events := by
          rw [hs0]
          simp only
          rw [countExec_append]
          simp [countExec]
        rw [hs0e]
        simp [List.length_cons]
        omega

theorem bs_spec {w : World} {flag : Bool} :
    ∀ (plugins : List (String × Option String)) (specs names : List String) (s : St),
    StCoh w s →
    ∀ out s', buildSpecs w flag plugins specs names s = (.ok out, s') →
    out.1 = specs ++ plugins.filterMap (fun pc => pc.2.map (fun cn => pluginSpecOf w flag pc.1 cn)) ∧
    (∀ nm, nm ∈ out.2 ↔ nm ∈ names ∨
      ∃ pc, pc ∈ plugins ∧ ∃ cn, pc.2 = some cn ∧ split1 cn = some nm) ∧
    StCoh w s' ∧ s'.napariCache = s.napariCache ∧ s'.pluginsCache = s.pluginsCache ∧
    countExec s'.events = countExec s.events := by
  intro plugins
  induction plugins with
  | nil =>
    intro specs names s hcoh out s' h
    simp [buildSpecs] at h
    obtain ⟨h1, h2⟩ := h
    subst h1
    subst h2
    refine ⟨by simp, ?_, hcoh, rfl, rfl, rfl⟩
    intro nm
    simp
  | cons pc rest ih =>
    intro specs names s hcoh out s' h
    obtain ⟨pypi, condaName⟩ := pc
    cases condaName with
    | none =>
      simp only [buildSpecs] at h
      have hres := ih specs names s hcoh out s' h
      refine ⟨by simpa using hres.1, ?_, hres.2.2⟩
      intro nm
      rw [hres.2.1 nm]
      constructor
      · rintro (hn | ⟨q, hq, cn, hcn, hsp⟩)
        · exact Or.inl hn
        · exact Or.inr ⟨q, List.mem_cons_of_mem _ hq, cn, hcn, hsp⟩
      · rintro (hn | ⟨q, hq, cn, hcn, hsp⟩)
        · exact Or.inl hn
        · rcases List.mem_cons.mp hq with rfl | hq
          · simp at hcn
          · exact Or.inr ⟨q, hq, cn, hcn, hsp⟩
    | some cn =>
      cases flag with
      | true =>
        simp only [buildSpecs, if_true] at h
        cases hsp : split1 cn with
        | none =>
          rw [hsp] at h
          simp at h
        | some nm =>
          rw [hsp] at h
          have hres := ih _ _ s hcoh out s' h
          refine ⟨?_, ?_, hres.2.2⟩
          · rw [hres.1]
            simp [pluginSpecOf, List.append_assoc]
          · intro nm'
            rw [hres.2.1 nm', mem_addName]
            constructor
            · rintro ((hn | rfl) | ⟨q, hq, cn', hcn', hsp'⟩)
              · exact Or.inl hn
              · exact Or.inr ⟨(pypi, some cn), List.mem_cons_self _ _, cn, rfl, hsp⟩
              · exact Or.inr ⟨q, List.mem_cons_of_mem _ hq, cn', hcn', hsp'⟩
            · rintro (hn | ⟨q, hq, cn', hcn', hsp'⟩)
              · exact Or.inl (Or.inl hn)
              · rcases List.mem_cons.mp hq with rfl | hq
                · simp only at hcn'
                  obtain rfl := Option.some.inj hcn'
                  rw [hsp] at hsp'
                  exact Or.inl (Or.inr (Option.some.inj hsp').symm)
                · exact Or.inr ⟨q, hq, cn', hcn', hsp'⟩
      | false =>
        have hl := lpv_spec hcoh pypi
        cases hlp : latest_plugin_version w pypi s with
        | mk v1 s1 =>
        rw [hlp] at hl
        simp only at hl
        obtain ⟨h1, hcoh1, hnap1, hplc1, hcnt1⟩ := hl
        subst h1
        simp only [buildSpecs, Bool.false_eq_true, if_false, hlp] at h
        cases hsp : split1 cn with
        | none =>
          rw [hsp] at h
          cases hv : pvResult w pypi with
          | some v => by_cases hve : v = "" <;> simp [hv, hve] at h
          | none => simp [hv] at h
        | some nm =>
          rw [hsp] at h
          suffices htail : buildSpecs w false rest
              (specs ++ [pluginSpecOf w false pypi cn]) (addName names nm) s1 = (.ok out, s') →
              out.1 = specs ++ (((pypi, some cn) :: rest).filterMap
                (fun pc => pc.2.map (fun cn => pluginSpecOf w false pc.1 cn))) ∧
              (∀ nm', nm' ∈ out.2 ↔ nm' ∈ names ∨
                ∃ q, q ∈ (pypi, some cn) :: rest ∧ ∃ cn', q.2 = some cn' ∧ split1 cn' = some nm') ∧
              StCoh w s' ∧ s'.napariCache = s.napariCache ∧ s'.pluginsCache = s.pluginsCache ∧
              countExec s'.events = countExec s.events by
            cases hv : pvResult w pypi with
            | some v =>
              by_cases hve : v = ""
              · apply htail
                have hspec : pluginSpecOf w false pypi cn = replaceSlashColons cn := by
                  simp [pluginSpecOf, hv, hve]
                rw [hspec]
                simpa [hv, hve] using h
              · apply htail
                have hspec : pluginSpecOf w false pypi cn = replaceSlashColons cn ++ "==" ++ v := by
                  simp [pluginSpecOf, hv, hve]
                rw [hspec]
                simpa [hv, hve] using h
            | none =>
              apply htail
              have hspec : pluginSpecOf w false pypi cn = replaceSlashColons cn := by
                simp [pluginSpecOf, hv]
              rw [hspec]
              simpa [hv] using h
          intro h2
          have hres := ih _ _ s1 hcoh1 out s' h2
          refine ⟨?_, ?_, hres.2.2.1, by rw [hres.2.2.2.1, hnap1],
            by rw [hres.2.2.2.2.1, hplc1], by rw [hres.2.2.2.2.2, hcnt1]⟩
          · rw [hres.1]
            simp [List.append_assoc]
          · intro nm'
            rw [hres.2.1 nm', mem_addName]
            constructor
            · rintro ((hn | rfl) | ⟨q, hq, cn', hcn', hsp'⟩)
              · exact Or.inl hn
              · exact Or.inr ⟨(pypi, some cn), List.mem_cons_self _ _, cn, rfl, hsp⟩
              · exact Or.inr ⟨q, List.mem_cons_of_mem _ hq, cn', hcn', hsp'⟩
            · rintro (hn | ⟨q, hq, cn', hcn', hsp'⟩)
              · exact Or.inl (Or.inl hn)
              · rcases List.mem_cons.mp hq with rfl | hq
                · simp only at hcn'
                  obtain rfl := Option.some.inj hcn'
                  rw [hsp] at hsp'
                  exact Or.inl (Or.inr (Option.some.inj hsp').symm)
                · exact Or.inr ⟨q, hq, cn', hcn', hsp'⟩

theorem length_filterMap_conda (w : World) (flag : Bool) (l : List (String × Option String)) :
    (l.filterMap (fun pc => pc.2.map (fun cn => pluginSpecOf w flag pc.1 cn))).length =
    (l.filter (fun pc => pc.2.isSome)).length := by
  induction l with
  | nil => rfl
  | cons p rest ih =>
    obtain ⟨a, b⟩ := p
    cases b <;> simp [ih]

theorem mkTasks_length (flag : Bool) (p n : String) (specs : List String) :
    (mkTasks flag p n specs).length = if flag then 1 else specs.length + 1 := by
  cases flag <;> simp [mkTasks]

theorem initSt_inv {w : World} (h : w.napariOk = true) : Inv w initSt := by
  refine ⟨⟨?_, ?_⟩, Or.inr h⟩
  · intro v hv
    simp [initSt] at hv
  · intro n v hm
    simp [initSt] at hm

theorem prep_inv (w : World) :
    Inv w ⟨some w.napariLatest, some w.plugins, [],
      [.get napariUrl, .get NPE2API_CONDA, .printPreparing]⟩ := by
  refine ⟨⟨?_, ?_⟩, ?_⟩
  · intro v hv
    exact (Option.some.inj hv).symm
  · intro n v hmem
    simp at hmem
  · left
    simp

theorem mf_ok_parts {w : World} {flag : Bool} {pyver : String} {fs : Failures} {s : St}
    (h : mainFailures w flag pyver = (.ok fs, s)) :
    w.napariOk = true ∧ w.pluginsOk = true ∧
    ∃ specs names s2,
      buildSpecs w flag w.plugins [] ["napari"]
        ⟨some w.napariLatest, some w.plugins, [],
         [.get napariUrl, .get NPE2API_CONDA, .printPreparing]⟩ = (.ok (specs, names), s2) ∧
      runTasks w flag names
        (mkTasks flag (pythonSpec pyver) (napariSpec w.napariLatest) specs).length
        (mkTasks flag (pythonSpec pyver) (napariSpec w.napariLatest) specs) 1 [] s2 = (.ok fs, s) := by
  cases hok : w.napariOk with
  | false =>
    exfalso
    simp [mainFailures, latest_napari_on_conda_forge, initSt, hok, bindE] at h
  | true =>
    cases hpl : w.pluginsOk with
    | false =>
      exfalso
      simp [mainFailures, latest_napari_on_conda_forge, all_plugin_names, initSt, hok, hpl,
        bindE] at h
    | true =>
      refine ⟨rfl, rfl, ?_⟩
      simp only [mainFailures, latest_napari_on_conda_forge, all_plugin_names, initSt, hok, hpl,
        bindE, if_true, List.nil_append, List.singleton_append, List.cons_append] at h
      cases hbs : buildSpecs w flag w.plugins [] ["napari"]
          ⟨some w.napariLatest, some w.plugins, [],
           [.get napariUrl, .get NPE2API_CONDA, .printPreparing]⟩ with
      | mk rb sb =>
        rw [hbs] at h
        cases rb with
        | error e => simp at h
        | ok sn =>
          obtain ⟨specs, names⟩ := sn
          simp only at h
          exact ⟨specs, names, sb, rfl, h⟩

end Machinery

/-- C1 counterexample: with an unsuccessful solve reporting an empty
problem list, the failures dict gets an entry with zero failure strings,
yet per-task mode exits with 1 — so the exit code is not "the number of
tasks that have at least one failure string", and it is non-zero though
no failure string was recorded. -/
theorem exit_code_counterexample :
    main wSolverFail false "3" = (.ok 1, stMainFail) ∧
    mainFailures wSolverFail false "3" = (.ok [(taskBase, [])], stMainFail) := by
  decide

/-- C1 amended: the per-task exit code is the number of entries of the
failures dict (an entry appears for each task that recorded failure
strings or whose solve reported success ≠ True, possibly with an empty
problem list, so it is zero exactly when the dict is empty); the
aggregate exit code is the total number of failure strings (zero exactly
when no strings were accumulated); main returns this value as the
process exit code. -/
theorem main_exit_code {w : World} {flag : Bool} {pyver : String} {fs : Failures} {s : St}
    (h : mainFailures w flag pyver = (.ok fs, s)) :
    main w flag pyver = (.ok (if flag then totalProblems fs else fs.length), s) ∧
    (fs = [] → main w flag pyver = (.ok 0, s)) ∧
    (flag = false → (main w flag pyver = (.ok 0, s) ↔ fs = [])) ∧
    (flag = true → (main w flag pyver = (.ok 0, s) ↔ totalProblems fs = 0)) := by
  refine ⟨?_, ?_, ?_, ?_⟩
  · simp only [main, h]
    cases flag <;> simp
  · intro hfs
    subst hfs
    simp only [main, h]
    cases flag <;> simp [totalProblems]
  · rintro rfl
    simp only [main, h]
    simp [List.length_eq_zero]
  · rintro rfl
    simp only [main, h]
    simp

theorem main_exit_code_witness :
    mainFailures wSolverFail false "3" = (.ok [(taskBase, [])], stMainFail) ∧
    main wSolverFail false "3" =
      (.ok (if false then totalProblems [(taskBase, [])] else ([(taskBase, [])] : Failures).length),
       stMainFail) :=
  ⟨by decide,
   (@main_exit_code wSolverFail false "3" [(taskBase, [])] stMainFail (by decide)).1⟩

/-- C7: when main completes, the number of solver invocations in the
trace is exactly the number of tasks — one under --all, and the number
of plugins with a conda name plus one (the baseline task) in per-task
mode. -/
theorem solver_invocations {w : World} {flag : Bool} {pyver : String} {n : Nat} {s : St}
    (h : main w flag pyver = (.ok n, s)) :
    countExec s.events = if flag then 1 else pluginCount w + 1 := by
  cases hmf : mainFailures w flag pyver with
  | mk r0 s0 =>
    cases r0 with
    | error e =>
      simp only [main, hmf] at h
      simp at h
    | ok fs =>
      simp only [main, hmf] at h
      have hs0 : s0 = s := by
        cases flag <;> simp at h <;> exact h.2
      subst hs0
      obtain ⟨hok, hpl, specs, names, s2, hbs, hrt⟩ := mf_ok_parts hmf
      have hprep := prep_inv w
      have hbss := bs_spec w.plugins [] ["napari"] _ hprep.1 (specs, names) s2 hbs
      have hinv2 : Inv w s2 := by
        refine ⟨hbss.2.2.1, ?_⟩
        unfold NapOK
        rw [hbss.2.2.2.1]
        left
        simp
      have hrun := rt_ok_spec
        (mkTasks flag (pythonSpec pyver) (napariSpec w.napariLatest) specs) 1 [] s2 hinv2 fs s0 hrt
      rw [hrun.2.1]
      have hc2 : countExec s2.events = 0 := by
        rw [hbss.2.2.2.2.2]
        rfl
      rw [hc2, mkTasks_length]
      have hlen : specs.length = pluginCount w := by
        have h1 := hbss.1
        simp only at h1
        rw [h1]
        simp [length_filterMap_conda, pluginCount]
      rw [hlen]
      cases flag <;> simp

theorem solver_invocations_witness :
    main wSolverFail false "3" = (.ok 1, stMainFail) ∧
    countExec stMainFail.events = if false then 1 else pluginCount wSolverFail + 1 :=
  ⟨by decide, @solver_invocations wSolverFail false "3" 1 stMainFail (by decide)⟩

/-- C5 counterexample: in per-task mode (without --all) a successfully
solved task whose solution links a stale napari — with the registry's
latest version known and the VersionOrder comparison reporting it
strictly newer — is not flagged at all: the latest-version check is
gated on args.all. -/
theorem stale_counterexample :
    (processTask wStale false ["napari"] ["t"] [] initSt).1 = .ok [] ∧
    wStale.parse (wStale.solveOut (solveCommand ["t"])) = some ⟨true, [⟨"napari", "0.1"⟩], []⟩ ∧
    wStale.versionLt "0.1" "9.9" = true ∧
    wLatestOpt wStale "napari" = some "9.9" ∧
    lowerStr "napari" ∈ ["napari"] := by
  decide

/-- C5 amended: in aggregate (--all) mode only, whenever a solver
invocation succeeds, every linked package among the checked names whose
version is strictly older by the VersionOrder comparison than the
registry's latest is flagged as a failure for the task, and a warning
string is recorded instead when the latest version cannot be determined;
in per-task mode the check is skipped (the version is forced in the
spec). -/
theorem stale_version_flagged {w : World} {names task : List String} {fs : Failures}
    {s : St} {r : SolverResult} {s1 : St} {fs' : Failures} {s' : St} {pkg : Pkg} {lv : String}
    (hinv : Inv w s)
    (hs : solve w task s = (.ok r, s1)) (hsucc : r.success = true)
    (hpt : processTask w true names task fs s = (.ok fs', s'))
    (hmem : pkg ∈ r.link) (hname : lowerStr pkg.name ∈ names) :
    (wLatestOpt w pkg.name = some lv → lv ≠ "" → w.versionLt pkg.version lv = true →
       memF fs' task (staleMsg pkg.name pkg.version lv)) ∧
    (truthyOpt (wLatestOpt w pkg.name) = false →
       memF fs' task (warnMsg pkg.name pkg.version)) := by
  have hsc := solve_caches w task s
  rw [hs] at hsc
  simp only at hsc
  have hinv1 : Inv w s1 := inv_of_caches hsc.1 hsc.2.1 hinv
  rw [processTask, hs] at hpt
  simp only [hsucc, if_true] at hpt
  have hres := pl_ok_spec r.link fs s1 hinv1 fs' s' hpt
  have hchunk : chunkOf w true names pkg = checkCore w pkg (wLatestOpt w pkg.name) := by
    simp [chunkOf, hname]
  constructor
  · intro hl hne hlt
    refine hres.2.2.2 pkg hmem _ ?_
    rw [hchunk, hl]
    simp [checkCore, hne, hlt]
  · intro hfal
    refine hres.2.2.2 pkg hmem _ ?_
    rw [hchunk]
    cases hwl : wLatestOpt w pkg.name with
    | none => simp [checkCore]
    | some lv2 =>
      rw [hwl] at hfal
      simp [truthyOpt] at hfal
      subst hfal
      simp [checkCore]

theorem stale_version_flagged_witness :
    Inv wStaleAll initSt ∧
    memF [(["t"], [staleMsg "foo" "1.0" "2.0"])] ["t"] (staleMsg "foo" "1.0" "2.0") :=
  ⟨initSt_inv rfl,
   (@stale_version_flagged wStaleAll ["foo"] ["t"] [] initSt ⟨true, [⟨"foo", "1.0"⟩], []⟩
      ⟨none, none, [], [.exec (solveCommand ["t"])]⟩
      [(["t"], [staleMsg "foo" "1.0" "2.0"])] stStaleAll ⟨"foo", "1.0"⟩ "2.0"
      (initSt_inv rfl) (by decide) rfl (by decide) (by decide) (by decide)).1
     (by decide) (by decide) (by decide)⟩

/-- C6: whenever a solver invocation succeeds, every linked package whose
lowercased name starts with "pyqt", is not exactly "pyqtgraph", and was
not picked up by the latest-version branch, is flagged for the task with
a failure string recording the package's name and version. -/
theorem pyqt_flagged {w : World} {flag : Bool} {names task : List String} {fs : Failures}
    {s : St} {r : SolverResult} {s1 : St} {fs' : Failures} {s' : St} {pkg : Pkg}
    (hinv : Inv w s)
    (hs : solve w task s = (.ok r, s1)) (hsucc : r.success = true)
    (hpt : processTask w flag names task fs s = (.ok fs', s'))
    (hmem : pkg ∈ r.link)
    (hnot : ¬(flag = true ∧ lowerStr pkg.name ∈ names))
    (hp4 : take4 (lowerStr pkg.name) = "pyqt")
    (hpg : lowerStr pkg.name ≠ "pyqtgraph") :
    memF fs' task (pyqtMsg pkg) := by
  have hsc := solve_caches w task s
  rw [hs] at hsc
  simp only at hsc
  have hinv1 : Inv w s1 := inv_of_caches hsc.1 hsc.2.1 hinv
  rw [processTask, hs] at hpt
  simp only [hsucc, if_true] at hpt
  have hres := pl_ok_spec r.link fs s1 hinv1 fs' s' hpt
  refine hres.2.2.2 pkg hmem _ ?_
  simp only [chunkOf]
  rw [if_neg hnot, if_pos ⟨hp4, hpg⟩]
  simp

theorem pyqt_flagged_witness :
    Inv wPyqt initSt ∧
    memF [(["t"], [pyqtMsg ⟨"PyQt5", "5.15"⟩])] ["t"] (pyqtMsg ⟨"PyQt5", "5.15"⟩) :=
  ⟨initSt_inv rfl,
   @pyqt_flagged wPyqt false [] ["t"] [] initSt ⟨true, [⟨"PyQt5", "5.15"⟩], []⟩
     ⟨none, none, [], [.exec (solveCommand ["t"])]⟩
     [(["t"], [pyqtMsg ⟨"PyQt5", "5.15"⟩])] stPyqt ⟨"PyQt5", "5.15"⟩
     (initSt_inv rfl) (by decide) rfl (by decide) (by decide) (by simp) (by decide) (by decide)⟩

/-- C8 counterexample: in a complete successful run the first two
registry requests (the napari latest-version GET and the plugin-listing
GET) follow each other with no sleep between them, so it is not the case
that every registry request is separated from the next by a fixed
delay. -/
theorem sleep_gap_counterexample :
    sleepSeparated false (main wSolverFail false "3").2.events = false ∧
    (main wSolverFail false "3").2.events.take 2 = [.get napariUrl, .get NPE2API_CONDA] ∧
    (main wSolverFail false "3").1 = .ok 1 := by
  decide

/-- C8 amended: only the per-plugin latest-version lookup delays — each
uncached per-plugin registry request is immediately followed by the
fixed 0.1 s sleep (before the response status is even read), while the
napari latest-version and plugin-listing requests are issued without any
delay event. -/
theorem sleep_after_plugin_request {w : World} {name : String} {s : St}
    (h : pvLookup s.pvCache name = none) :
    (latest_plugin_version w name s).2.events = s.events ++ [.get (pvUrl name), .sleep] ∧
    (∀ s2 : St, s2.napariCache = none → w.napariOk = true →
       (latest_napari_on_conda_forge w s2).2.events = s2.events ++ [.get napariUrl]) ∧
    (∀ s3 : St, s3.pluginsCache = none → w.pluginsOk = true →
       (all_plugin_names w s3).2.events = s3.events ++ [.get NPE2API_CONDA]) := by
  refine ⟨?_, ?_, ?_⟩
  · simp [latest_plugin_version, h]
  · intro s2 hc hok
    simp [latest_napari_on_conda_forge, hc, hok]
  · intro s3 hc hok
    simp [all_plugin_names, hc, hok]

theorem sleep_after_plugin_request_witness :
    pvLookup initSt.pvCache "p" = none ∧
    (latest_plugin_version wSolverFail "p" initSt).2.events =
      initSt.events ++ [.get (pvUrl "p"), .sleep] :=
  ⟨rfl, (@sleep_after_plugin_request wSolverFail "p" initSt rfl).1⟩

/-- C10: plugins with a null conda name contribute neither a plugin spec
nor a checked name; every plugin with a conda name contributes the spec
obtained by replacing "/" with "::", pinned with ==latest_version in
per-task mode exactly when the latest-version lookup is truthy, and its
conda package name (the part after the slash) joins the checked names. -/
theorem plugin_spec_construction {w : World} {flag : Bool}
    {plugins : List (String × Option String)} {specs0 names0 : List String} {s : St}
    {out : List String × List String} {s' : St}
    (hcoh : StCoh w s)
    (h : buildSpecs w flag plugins specs0 names0 s = (.ok out, s')) :
    out.1 = specs0 ++
      plugins.filterMap (fun pc => pc.2.map (fun cn => pluginSpecOf w flag pc.1 cn)) ∧
    (∀ nm, nm ∈ out.2 ↔ nm ∈ names0 ∨
      ∃ pc, pc ∈ plugins ∧ ∃ cn, pc.2 = some cn ∧ split1 cn = some nm) := by
  have hres := bs_spec plugins specs0 names0 s hcoh out s' h
  exact ⟨hres.1, hres.2.1⟩

theorem plugin_spec_construction_witness :
    StCoh wMixed initSt ∧
    buildSpecs wMixed false wMixed.plugins [] ["napari"] initSt =
      (.ok (["ch::apkg==3.3"], ["napari", "apkg"]), stMixed) ∧
    ((["ch::apkg==3.3"], ["napari", "apkg"]) : List String × List String).1 =
      [] ++ wMixed.plugins.filterMap
        (fun pc => pc.2.map (fun cn => pluginSpecOf wMixed false pc.1 cn)) :=
  ⟨(initSt_inv rfl).1, by decide,
   (@plugin_spec_construction wMixed false wMixed.plugins [] ["napari"] initSt
      (["ch::apkg==3.3"], ["napari", "apkg"]) stMixed (initSt_inv rfl).1 (by decide)).1⟩

end CheckInstall
